import Mathlib

/-!
Shallow embedding of the incremental website-sync pipeline
(`scripts/pipeline.py`; `pipeline.py` is an identical copy of the
functions modelled here).  Python dictionaries are modelled as
association lists preserving insertion order, Python sets as
deduplicated lists, and the external SHA-256 digest (`hashlib`) as an
abstract function parameter, since only its determinism matters to the
code under verification.  All definitions are executable.
-/

/-- Python `sorted(l)` on a list of strings (lexicographic by code point,
which is exactly the order of `String`'s linear order). -/
def py_sorted (l : List String) : List String :=
  l.insertionSort (· ≤ ·)

/-- Python `sorted(set(l))`: deduplicate, then sort. -/
def py_sorted_set (l : List String) : List String :=
  py_sorted l.dedup

/-- Result of `compare_maps`: the three keys of the returned dict. -/
structure MapComparison where
  new : List String
  unchanged : List String
  deleted : List String
deriving Repr, DecidableEq

/-- `compare_maps(new_urls, cached_urls)` (pipeline.py):
`new = sorted(new_set - cached_set)`, `unchanged = sorted(new_set & cached_set)`,
`deleted = sorted(cached_set - new_set)` where the sets are Python sets of
the two input lists. -/
def compare_maps (new_urls cached_urls : List String) : MapComparison where
  new := py_sorted_set (new_urls.filter (fun u => !(cached_urls.contains u)))
  unchanged := py_sorted_set (new_urls.filter (fun u => cached_urls.contains u))
  deleted := py_sorted_set (cached_urls.filter (fun u => !(new_urls.contains u)))

/-- `get_batch_id(urls)` (pipeline.py): sha256 of the newline-join of the
sorted URLs, truncated to 16 hex characters.  `sha256_hexdigest` stands for
`hashlib.sha256(s.encode()).hexdigest()`, an external deterministic function. -/
def get_batch_id (sha256_hexdigest : String → String) (urls : List String) : String :=
  (sha256_hexdigest (String.intercalate "\n" (py_sorted urls))).take 16

/-- `DELETION_MISS_THRESHOLD` (pipeline.py): consecutive map misses before
a page file is deleted. -/
def DELETION_MISS_THRESHOLD : Nat := 3

/-- One value of the `state["deletion_candidates"]` dict. -/
structure DeletionCandidate where
  consecutive_misses : Nat
  first_missing_at : String
  last_missing_at : String
deriving Repr, DecidableEq

/-- The `deletion_candidates` dict: an insertion-ordered association list. -/
abbrev Candidates := List (String × DeletionCandidate)

/-- The first loop of `update_deletion_candidates`: delete every candidate
whose URL is back in the active set. -/
def clear_returned (candidates : Candidates) (active_urls : List String) : Candidates :=
  candidates.filter (fun p => !(active_urls.contains p.1))

/-- The in-place mutation `candidates[url]["consecutive_misses"] += 1` /
`candidates[url]["last_missing_at"] = now`, as a per-entry function. -/
def bump_candidate (now url : String) (p : String × DeletionCandidate) :
    String × DeletionCandidate :=
  if p.1 == url then
    (p.1, { p.2 with consecutive_misses := p.2.consecutive_misses + 1,
                     last_missing_at := now })
  else p

/-- The body of the second loop of `update_deletion_candidates` for one URL of
`deleted_urls`: increment the existing candidate (updating `last_missing_at`)
or create a fresh one with `consecutive_misses = 1`. -/
def record_miss (now : String) (cs : Candidates) (url : String) : Candidates :=
  if cs.any (fun p => p.1 == url) then
    cs.map (bump_candidate now url)
  else
    cs ++ [(url, ⟨1, now, now⟩)]

/-- `update_deletion_candidates(state, deleted_urls, active_urls)` (pipeline.py).
The Python mutates `state["deletion_candidates"]` in place and returns the
threshold-hit URLs; here the updated dict is returned alongside.
`now` stands for `datetime.now(timezone.utc).isoformat()`. -/
def update_deletion_candidates (candidates : Candidates)
    (deleted_urls active_urls : List String) (now : String) :
    List String × Candidates :=
  let cs := clear_returned candidates active_urls
  let cs := deleted_urls.foldl (record_miss now) cs
  let urls_to_delete :=
    (cs.filter (fun p => DELETION_MISS_THRESHOLD ≤ p.2.consecutive_misses)).map Prod.fst
  (urls_to_delete, cs.filter (fun p => !(urls_to_delete.contains p.1)))

/-- The dict returned by `map_website` (the fields the driver consumes). -/
structure MapResult where
  urls : List String
  new_urls : List String
  unchanged_urls : List String
  deleted_urls : List String
deriving Repr, DecidableEq

/-- `map_website` (pipeline.py), active modes only (the `--skip-scrape`
cache-only early return performs no discovery and is outside the modelled
runs).  `discovered` is the URL list returned by the Map API call;
`cached_map` is the content of `map-urls.txt` from the previous run.
With `force_refresh` the cache is ignored (`cached_urls = []`); otherwise the
cached map is loaded and compared.  The new map always overwrites
`map-urls.txt` afterwards (reflected in `run_sync`). -/
def map_website (discovered cached_map : List String) (force_refresh : Bool) :
    MapResult :=
  let cached := if force_refresh then [] else cached_map
  let c := compare_maps discovered cached
  ⟨discovered, c.new, c.unchanged, c.deleted⟩

/-- The sync-relevant persisted state of one run of `main`:
the saved map (`map-urls.txt`) and the deletion-candidates dict. -/
structure SyncState where
  map_urls : List String
  deletion_candidates : Candidates
deriving Repr, DecidableEq

/-- What one run of `main`'s active mode produces. -/
structure RunOutcome where
  state : SyncState
  urls_to_delete : List String
  urls_to_scrape : List String
deriving Repr, DecidableEq

/-- One active-mode run of `main` (pipeline.py): map the site, update the
deletion candidates with the comparison's `deleted` list and the full
discovered list, save the discovered list as the new cached map, and choose
the URLs to scrape (all of them under force-refresh or on a first run, only
the new ones incrementally, none when nothing is new). -/
def run_sync (st : SyncState) (discovered : List String) (force_refresh : Bool)
    (now : String) : RunOutcome :=
  let mr := map_website discovered st.map_urls force_refresh
  let upd := update_deletion_candidates st.deletion_candidates mr.deleted_urls mr.urls now
  let to_scrape :=
    if force_refresh then mr.urls
    else if mr.new_urls ≠ [] then mr.new_urls
    else if mr.unchanged_urls ≠ [] then ([] : List String)
    else mr.urls
  ⟨⟨discovered, upd.2⟩, upd.1, to_scrape⟩

/-- The exception classes `_is_retryable_error` inspects: `requests` timeouts
and connection errors, `requests.exceptions.HTTPError` carrying an optional
response status, and anything else. -/
inductive PyException where
  | timeout
  | connectionError
  | httpError (response_status : Option Nat)
  | otherError (msg : String)
deriving Repr, DecidableEq

/-- `_is_retryable_error(exception)` (pipeline.py): timeouts and connection
errors are retryable; an HTTPError is retryable iff its status (0 when the
response is None) is 429, 500, 502, 503 or 504; nothing else is. -/
def is_retryable_error : PyException → Bool
  | .timeout => true
  | .connectionError => true
  | .httpError r => [429, 500, 502, 503, 504].contains (r.getD 0)
  | .otherError _ => false

/-- The tenacity keyword arguments of `RETRY_CONFIG` (pipeline.py). -/
structure RetryConfig where
  stop_after_attempts : Nat
  wait_multiplier : Nat
  wait_min : Nat
  wait_max : Nat
  reraise : Bool
deriving Repr, DecidableEq

/-- `RETRY_CONFIG` (pipeline.py): `stop_after_attempt(5)`,
`wait_exponential(multiplier=1, min=2, max=60)`, `reraise=True`. -/
def RETRY_CONFIG : RetryConfig := ⟨5, 1, 2, 60, true⟩

/-- Modelled from the spec and the tenacity documentation:
`wait_exponential(multiplier, min, max)` waits
`clamp(multiplier * 2^n, min, max)` seconds before the n-th retry. -/
def wait_exponential_time (cfg : RetryConfig) (retry_number : Nat) : Nat :=
  min cfg.wait_max (max cfg.wait_min (cfg.wait_multiplier * 2 ^ retry_number))

/-- Modelled from the tenacity documentation (tenacity is an external
library): run attempt `k`; on a retryable error retry while attempts remain,
otherwise (non-retryable error, or attempts exhausted with `reraise=True`)
re-raise the final error. -/
def retry_run (retryable : PyException → Bool)
    (call : Nat → Except PyException α) : Nat → Nat → Except PyException α
  | k, remaining =>
    match call k with
    | .ok a => .ok a
    | .error e =>
      if retryable e then
        match remaining with
        | 0 => .error e
        | r + 1 => retry_run retryable call (k + 1) r
      else .error e

/-- A remote call decorated with `@retry(**RETRY_CONFIG)`: at most
`stop_after_attempt(5)` attempts, retrying on `_is_retryable_error`. -/
def call_with_retries (call : Nat → Except PyException α) : Except PyException α :=
  retry_run is_retryable_error call 0 (RETRY_CONFIG.stop_after_attempts - 1)

/-- A Python JSON value, as decoded by `json.load`. -/
inductive PyJson where
  | null
  | bool (b : Bool)
  | num (n : Int)
  | str (s : String)
  | arr (items : List PyJson)
  | dict (entries : List (String × PyJson))

/-- What reading and decoding `state.json` can observe: the file is missing,
opening or reading it raises `OSError`, decoding its bytes as UTF-8 inside
`json.load` raises `UnicodeDecodeError` (the file exists and is readable but
is not valid UTF-8), `json.load` raises `JSONDecodeError`, or a value is
decoded. -/
inductive StateFileRead where
  | missing
  | osError (msg : String)
  | unicodeDecodeError (msg : String)
  | decodeError (msg : String)
  | parsed (v : PyJson)

/-- The exceptions `load_state` can encounter while reading the file. -/
inductive PyError where
  | osError (msg : String)
  | unicodeDecodeError (msg : String)
  | jsonDecodeError (msg : String)
deriving Repr, DecidableEq

/-- The empty default state document of `load_state`. -/
def empty_state : PyJson := .dict [("map", .dict []), ("batches", .dict [])]

/-- The raising part of `load_state`: `os.path.exists`, `open`, `json.load`
(which decodes the file's bytes as UTF-8 before parsing). -/
def read_state_json : StateFileRead → Except PyError (Option PyJson)
  | .missing => .ok none
  | .osError m => .error (.osError m)
  | .unicodeDecodeError m => .error (.unicodeDecodeError m)
  | .decodeError m => .error (.jsonDecodeError m)
  | .parsed v => .ok (some v)

/-- `load_state(workspace_dir)` (pipeline.py): return the decoded document
when it is a dict; fall back to the empty default (with a logged warning)
when the file is missing, unreadable (`OSError`), malformed JSON
(`JSONDecodeError`) or decodes to a non-dict value.  The
`except (json.JSONDecodeError, OSError)` clause catches only those two
classes: a `UnicodeDecodeError` from a state file that is not valid UTF-8
is not caught and propagates to the caller. -/
def load_state (r : StateFileRead) : Except PyError PyJson :=
  match read_state_json r with
  | .ok none => .ok empty_state
  | .ok (some v) =>
    match v with
    | .dict es => .ok (.dict es)
    | _ => .ok empty_state
  | .error (.osError _) => .ok empty_state
  | .error (.jsonDecodeError _) => .ok empty_state
  | .error (.unicodeDecodeError m) => .error (.unicodeDecodeError m)

/-- `MAX_SLUG_LEN` (pipeline.py). -/
def MAX_SLUG_LEN : Nat := 80

/-- Python `url.rstrip("/")`. -/
def rstrip_slashes (s : String) : String :=
  ⟨(s.data.reverse.dropWhile (· == '/')).reverse⟩

/-- Python `path.strip("/")`. -/
def strip_slashes (s : String) : String :=
  ⟨((s.data.dropWhile (· == '/')).reverse.dropWhile (· == '/')).reverse⟩

/-- The characters CPython's `urllib.parse` accepts inside a URL scheme. -/
def scheme_char (c : Char) : Bool :=
  c.isAlpha || c.isDigit || c == '+' || c == '-' || c == '.'

/-- CPython `urlsplit` scheme handling: if the first `:` is preceded by a
non-empty run of scheme characters starting with a letter, drop the scheme
and the colon. -/
def split_scheme (l : List Char) : List Char :=
  match l.findIdx? (· == ':') with
  | some i =>
    if decide (0 < i) && (l.take i).all scheme_char && (l.headD 'x').isAlpha then
      l.drop (i + 1)
    else l
  | none => l

/-- CPython `urlsplit` netloc handling: after `//`, the netloc extends to the
next `/`, `?` or `#` (or the end); the path starts at that delimiter. -/
def drop_netloc (l : List Char) : List Char :=
  match l with
  | '/' :: '/' :: rest => rest.dropWhile (fun c => !(c == '/' || c == '?' || c == '#'))
  | _ => l

/-- `urlparse(url).path`: strip the scheme, the `//netloc` part, the fragment
(from the first `#`) and the query (from the first `?`). -/
def urlparse_path (url : String) : String :=
  let l := split_scheme url.data
  let l := drop_netloc l
  let l := l.takeWhile (· != '#')
  let l := l.takeWhile (· != '?')
  ⟨l⟩

/-- The character class kept by `re.sub(r"[^a-z0-9\-]", "", ...)`. -/
def slug_char (c : Char) : Bool :=
  decide (('a' ≤ c ∧ c ≤ 'z') ∨ ('0' ≤ c ∧ c ≤ '9') ∨ c = '-')

/-- `url_to_slug(url)` (pipeline.py): take the URL's path (trailing slashes
of the URL stripped first), strip surrounding slashes; an empty path gives
"index"; otherwise replace `/` with `--`, lowercase, drop every character
outside `[a-z0-9-]`, and when longer than `MAX_SLUG_LEN` truncate and append
`-` plus the first 8 characters of the sha256 hexdigest of the full URL. -/
def url_to_slug (sha256_hexdigest : String → String) (url : String) : String :=
  let path := strip_slashes (urlparse_path (rstrip_slashes url))
  if path = "" then "index"
  else
    let slug := (path.data.flatMap (fun c => if c == '/' then ['-', '-'] else [c])).map Char.toLower
    let slug := slug.filter slug_char
    if MAX_SLUG_LEN < slug.length then
      ⟨slug.take MAX_SLUG_LEN ++ '-' :: (sha256_hexdigest url).data.take 8⟩
    else ⟨slug⟩

/-- One value of the `state["batches"]` dict.  Missing keys of the Python
dict are `none` / `[]` (the defaults used by `.get`). -/
structure BatchRecord (Page : Type) where
  status : Option String := none
  firecrawl_batch_id : Option String := none
  urls : List String := []
  pages : List Page := []
  error : Option String := none
  timestamp : Option String := none
deriving DecidableEq

/-- The `state["batches"]` dict: an insertion-ordered association list.
`Page` is the (opaque) type of one scraped page record. -/
abbrev Batches (Page : Type) := List (String × BatchRecord Page)

/-- Python `state["batches"].get(k)`. -/
def lookupB {Page : Type} (bs : Batches Page) (k : String) : Option (BatchRecord Page) :=
  (bs.find? (fun p => p.1 == k)).map Prod.snd

/-- Python `state["batches"][k] = r`: overwrite in place, or append. -/
def setB {Page : Type} (bs : Batches Page) (k : String) (r : BatchRecord Page) :
    Batches Page :=
  if bs.any (fun p => p.1 == k) then
    bs.map (fun p => if p.1 == k then (p.1, r) else p)
  else bs ++ [(k, r)]

/-- The observable effects of `batch_scrape`: the three remote endpoints
(submit, poll, fetch-next-page) and each `save_state` checkpoint. -/
inductive ApiEvent (Page : Type) where
  | submitCall (urls : List String)
  | pollCall (firecrawl_batch_id : String)
  | pageCall (next_url : String)
  | saveState (batches : List (String × BatchRecord Page))
deriving DecidableEq

/-- A decoded poll / pagination response body: `status`, `data`, `next`. -/
structure PollResponse (Page : Type) where
  status : String
  data : List Page := []
  next : Option String := none
deriving DecidableEq

/-- The remote Firecrawl service, as an oracle: `submit` returns a job id or
raises, `poll fid k` is the outcome of the k-th status poll of job `fid`,
`page u` fetches the pagination URL `u`.  Errors are the exceptions that
escape the retry decorators. -/
structure FirecrawlApi (Page : Type) where
  submit : List String → Except String String
  poll : String → Nat → Except String (PollResponse Page)
  page : String → Except String (PollResponse Page)

/-- How the poll loop of `batch_scrape` can end. -/
inductive PollOutcome (Page : Type) where
  | pollTimeout
  | pollError (e : String)
  | batchFailed
  | completed (resp : PollResponse Page)

/-- `BATCH_SIZE` (pipeline.py). -/
def BATCH_SIZE : Nat := 100

/-- `POLL_INTERVAL` (pipeline.py), seconds between status checks. -/
def POLL_INTERVAL : Nat := 5

/-- `MAX_POLL_TIME` (pipeline.py), max wait per batch in seconds. -/
def MAX_POLL_TIME : Nat := 600

/-- Enough loop iterations that the `MAX_POLL_TIME` check always fires
before the fuel runs out: the loop polls at most 120 times. -/
def POLL_FUEL : Nat := MAX_POLL_TIME / POLL_INTERVAL + 1

/-- The poll loop of `batch_scrape`: sleep `POLL_INTERVAL`, time out once
the elapsed time exceeds `MAX_POLL_TIME`, otherwise poll; a poll error or a
"failed" status ends the loop, "completed" succeeds, anything else loops.
After `k` sleeps the elapsed time is `k * POLL_INTERVAL` seconds. -/
def poll_loop {Page : Type} (poll : Nat → Except String (PollResponse Page))
    (fid : String) : Nat → Nat → List (ApiEvent Page) × PollOutcome Page
  | _, 0 => ([], .pollTimeout)
  | k, fuel + 1 =>
    if MAX_POLL_TIME < (k + 1) * POLL_INTERVAL then ([], .pollTimeout)
    else
      match poll k with
      | .error e => ([.pollCall fid], .pollError e)
      | .ok resp =>
        if resp.status = "completed" then ([.pollCall fid], .completed resp)
        else if resp.status = "failed" then ([.pollCall fid], .batchFailed)
        else
          let r := poll_loop poll fid (k + 1) fuel
          (.pollCall fid :: r.1, r.2)

/-- The pagination loop of `batch_scrape`: follow `next` links, merging each
page's `data`; a pagination error logs and breaks, keeping the pages so far.
The unbounded `while next_url` loop is given explicit fuel; fuel exhaustion
only cuts off the observation, the claims quantify over the fuel. -/
def paginate {Page : Type} (page : String → Except String (PollResponse Page)) :
    List Page → Option String → Nat → List (ApiEvent Page) × List Page
  | acc, none, _ => ([], acc)
  | acc, some _, 0 => ([], acc)
  | acc, some u, fuel + 1 =>
    match page u with
    | .error _ => ([.pageCall u], acc)
    | .ok resp =>
      let r := paginate page (acc ++ resp.data) resp.next fuel
      (.pageCall u :: r.1, r.2)

/-- Python `state["batches"][batch_id]["status"] = "failed"` plus the error
field: mutate the existing record in place. -/
def mark_failed {Page : Type} (bs : Batches Page) (k : String) (err : String) :
    Batches Page :=
  bs.map (fun p =>
    if p.1 == k then (p.1, { p.2 with status := some "failed", error := some err })
    else p)

/-- The poll-and-collect tail of one loop iteration of `batch_scrape`:
run the poll loop on `fid`; on timeout, poll error or batch failure mark the
record failed and save; on completion paginate, store the completed record
(pages merged) and save.  `evs` are the events already emitted. -/
def run_poll {Page : Type} (api : FirecrawlApi Page) (batch_id fid : String)
    (batch_urls : List String) (bs : Batches Page) (evs : List (ApiEvent Page))
    (now : String) (pageFuel : Nat) :
    List (ApiEvent Page) × Batches Page × List Page :=
  match poll_loop (api.poll fid) fid 0 POLL_FUEL with
  | (pevs, .pollTimeout) =>
    let bs2 := mark_failed bs batch_id "poll_timeout"
    (evs ++ pevs ++ [.saveState bs2], bs2, [])
  | (pevs, .pollError e) =>
    let bs2 := mark_failed bs batch_id e
    (evs ++ pevs ++ [.saveState bs2], bs2, [])
  | (pevs, .batchFailed) =>
    let bs2 := mark_failed bs batch_id "batch_failed"
    (evs ++ pevs ++ [.saveState bs2], bs2, [])
  | (pevs, .completed resp) =>
    match paginate api.page resp.data resp.next pageFuel with
    | (qevs, pages) =>
      let bs2 := setB bs batch_id
        { status := some "completed", firecrawl_batch_id := some fid,
          urls := batch_urls, pages := pages, timestamp := some now }
      (evs ++ pevs ++ qevs ++ [.saveState bs2], bs2, pages)

/-- The submission path of one loop iteration of `batch_scrape`: submit the
chunk; on failure record a failed batch, save and continue; on success save
the polling record (with the remote job id) before entering the poll loop. -/
def submit_and_poll {Page : Type} (api : FirecrawlApi Page) (batch_id : String)
    (bs : Batches Page) (batch_urls : List String) (now : String) (pageFuel : Nat) :
    List (ApiEvent Page) × Batches Page × List Page :=
  match api.submit batch_urls with
  | .error e =>
    let bs2 := setB bs batch_id
      { status := some "failed", urls := batch_urls, error := some e,
        timestamp := some now }
    ([.submitCall batch_urls, .saveState bs2], bs2, [])
  | .ok fid =>
    let bs2 := setB bs batch_id
      { status := some "polling", firecrawl_batch_id := some fid,
        urls := batch_urls, timestamp := some now }
    run_poll api batch_id fid batch_urls bs2
      [.submitCall batch_urls, .saveState bs2] now pageFuel

/-- One iteration of the per-batch loop of `batch_scrape` (pipeline.py):
a completed record (without force-refresh) is served from cache with zero
remote calls; a polling record with a (truthy) remote job id resumes polling
directly; otherwise the chunk is submitted anew. -/
def process_chunk {Page : Type} (api : FirecrawlApi Page)
    (sha256_hexdigest : String → String) (force_refresh : Bool) (now : String)
    (pageFuel : Nat) (batches : Batches Page) (batch_urls : List String) :
    List (ApiEvent Page) × Batches Page × List Page :=
  let batch_id := get_batch_id sha256_hexdigest batch_urls
  let batch_state := (lookupB batches batch_id).getD {}
  if force_refresh = false ∧ batch_state.status = some "completed" then
    ([], batches, batch_state.pages)
  else
    match batch_state.firecrawl_batch_id with
    | some fid =>
      if force_refresh = false ∧ batch_state.status = some "polling" ∧ fid ≠ "" then
        run_poll api batch_id fid batch_urls batches [] now pageFuel
      else
        submit_and_poll api batch_id batches batch_urls now pageFuel
    | none => submit_and_poll api batch_id batches batch_urls now pageFuel

/-- Python `[urls[i : i + n] for i in range(0, len(urls), n)]` for `n > 0`. -/
def chunksOf {α : Type} : Nat → List α → List (List α)
  | 0, _ => []
  | _, [] => []
  | n + 1, x :: xs => ((x :: xs).take (n + 1)) :: chunksOf (n + 1) ((x :: xs).drop (n + 1))
termination_by _ l => l.length
decreasing_by
  simp only [List.length_drop, List.length_cons]
  omega

/-- `batch_scrape(urls, ...)` (pipeline.py): split into `BATCH_SIZE` chunks
and run the per-batch loop, threading the persisted state (`state0` is what
`load_state` returned) and accumulating events and pages. -/
def batch_scrape {Page : Type} (api : FirecrawlApi Page)
    (sha256_hexdigest : String → String) (urls : List String)
    (force_refresh : Bool) (state0 : Batches Page) (now : String) (pageFuel : Nat) :
    List (ApiEvent Page) × Batches Page × List Page :=
  (chunksOf BATCH_SIZE urls).foldl
    (fun acc chunk =>
      let r := process_chunk api sha256_hexdigest force_refresh now pageFuel acc.2.1 chunk
      (acc.1 ++ r.1, r.2.1, acc.2.2 ++ r.2.2))
    ([], state0, [])

/-- Observation: the candidate records stored under key `u` (for a list
arising from a Python dict this has at most one element). -/
def entriesOf (cs : Candidates) (u : String) : List DeletionCandidate :=
  (cs.filter (fun p => p.1 == u)).map Prod.snd

/-! ## Theorems -/

theorem mem_py_sorted (l : List String) (a : String) : a ∈ py_sorted l ↔ a ∈ l :=
  (List.perm_insertionSort _ l).mem_iff

theorem sorted_py_sorted (l : List String) : (py_sorted l).Sorted (· ≤ ·) :=
  List.sorted_insertionSort _ l

theorem mem_py_sorted_set (l : List String) (a : String) :
    a ∈ py_sorted_set l ↔ a ∈ l := by
  rw [py_sorted_set, mem_py_sorted, List.mem_dedup]

theorem nodup_py_sorted_set (l : List String) : (py_sorted_set l).Nodup :=
  (List.perm_insertionSort _ l.dedup).nodup_iff.mpr (List.nodup_dedup l)

theorem sorted_py_sorted_set (l : List String) :
    (py_sorted_set l).Sorted (· ≤ ·) :=
  sorted_py_sorted l.dedup

theorem mem_compare_maps_new (A B : List String) (x : String) :
    x ∈ (compare_maps A B).new ↔ x ∈ A ∧ x ∉ B := by
  simp [compare_maps, mem_py_sorted_set, List.mem_filter]

theorem mem_compare_maps_unchanged (A B : List String) (x : String) :
    x ∈ (compare_maps A B).unchanged ↔ x ∈ A ∧ x ∈ B := by
  simp [compare_maps, mem_py_sorted_set, List.mem_filter]

theorem mem_compare_maps_deleted (A B : List String) (x : String) :
    x ∈ (compare_maps A B).deleted ↔ x ∈ B ∧ x ∉ A := by
  simp [compare_maps, mem_py_sorted_set, List.mem_filter]

/-- C4: `compare_maps(A, B)` returns `new = set(A) - set(B)`,
`unchanged = set(A) ∩ set(B)`, `deleted = set(B) - set(A)`; the three lists
are pairwise disjoint, `new ∪ unchanged` is `set(A)`, `unchanged ∪ deleted`
is `set(B)`, and each list is duplicate-free and sorted lexicographically
(so identical inputs give identical output). -/
theorem compare_maps_spec (A B : List String) :
    (∀ x, x ∈ (compare_maps A B).new ↔ x ∈ A ∧ x ∉ B) ∧
    (∀ x, x ∈ (compare_maps A B).unchanged ↔ x ∈ A ∧ x ∈ B) ∧
    (∀ x, x ∈ (compare_maps A B).deleted ↔ x ∈ B ∧ x ∉ A) ∧
    (∀ x, ¬(x ∈ (compare_maps A B).new ∧ x ∈ (compare_maps A B).unchanged)) ∧
    (∀ x, ¬(x ∈ (compare_maps A B).new ∧ x ∈ (compare_maps A B).deleted)) ∧
    (∀ x, ¬(x ∈ (compare_maps A B).unchanged ∧ x ∈ (compare_maps A B).deleted)) ∧
    (∀ x, (x ∈ (compare_maps A B).new ∨ x ∈ (compare_maps A B).unchanged) ↔ x ∈ A) ∧
    (∀ x, (x ∈ (compare_maps A B).unchanged ∨ x ∈ (compare_maps A B).deleted) ↔ x ∈ B) ∧
    (compare_maps A B).new.Nodup ∧
    (compare_maps A B).unchanged.Nodup ∧
    (compare_maps A B).deleted.Nodup ∧
    (compare_maps A B).new.Sorted (· ≤ ·) ∧
    (compare_maps A B).unchanged.Sorted (· ≤ ·) ∧
    (compare_maps A B).deleted.Sorted (· ≤ ·) := by
  refine ⟨mem_compare_maps_new A B, mem_compare_maps_unchanged A B,
    mem_compare_maps_deleted A B, ?_, ?_, ?_, ?_, ?_,
    nodup_py_sorted_set _, nodup_py_sorted_set _, nodup_py_sorted_set _,
    sorted_py_sorted_set _, sorted_py_sorted_set _, sorted_py_sorted_set _⟩
  · intro x
    simp only [mem_compare_maps_new, mem_compare_maps_unchanged]
    tauto
  · intro x
    simp only [mem_compare_maps_new, mem_compare_maps_deleted]
    tauto
  · intro x
    simp only [mem_compare_maps_unchanged, mem_compare_maps_deleted]
    tauto
  · intro x
    simp only [mem_compare_maps_new, mem_compare_maps_unchanged]
    by_cases hB : x ∈ B <;> tauto
  · intro x
    simp only [mem_compare_maps_unchanged, mem_compare_maps_deleted]
    by_cases hA : x ∈ A <;> tauto

/-- C6: `get_batch_id` is a deterministic hash of the sorted URLs, so it is
invariant under permutation of the chunk's members (for the external
`hashlib.sha256` digest function, whatever it is). -/
theorem get_batch_id_perm_invariant (sha256_hexdigest : String → String)
    (u v : List String) (h : List.Perm u v) :
    get_batch_id sha256_hexdigest u = get_batch_id sha256_hexdigest v := by
  have hs : py_sorted u = py_sorted v :=
    List.eq_of_perm_of_sorted
      ((List.perm_insertionSort _ u).trans (h.trans (List.perm_insertionSort _ v).symm))
      (sorted_py_sorted u) (sorted_py_sorted v)
  rw [get_batch_id, get_batch_id, hs]

/-- Witness for C6: a concrete permuted pair under a concrete digest
function agrees. -/
theorem get_batch_id_perm_invariant_witness :
    get_batch_id (fun s => s ++ "0123456789abcdef") ["b", "a"] =
    get_batch_id (fun s => s ++ "0123456789abcdef") ["a", "b"] :=
  get_batch_id_perm_invariant _ _ _ (by decide)

/-- C9: the code's actual behavior.  `load_state` returns the decoded dict,
and returns the empty default document `{"map": {}, "batches": {}}` when the
file is missing, raises `OSError`, raises `JSONDecodeError`, or decodes to a
non-dict value — but a state file whose bytes are not valid UTF-8 makes
`json.load` raise `UnicodeDecodeError`, which the
`except (json.JSONDecodeError, OSError)` clause does not catch, so the
exception escapes and `load_state` is not total as claimed. -/
theorem load_state_code_behavior (r : StateFileRead) :
    load_state r = match r with
      | .unicodeDecodeError m => .error (.unicodeDecodeError m)
      | .parsed (.dict es) => .ok (.dict es)
      | _ => .ok empty_state := by
  cases r with
  | missing => rfl
  | osError m => rfl
  | unicodeDecodeError m => rfl
  | decodeError m => rfl
  | parsed v => cases v <;> rfl

/-- C7 counterexample: HTTP 501 is a 5xx server-error status, yet
`_is_retryable_error` classifies it as not retryable (the code retries only
429, 500, 502, 503 and 504), refuting "every 5xx server-error response is
retryable". -/
theorem is_retryable_error_5xx_counterexample :
    500 ≤ 501 ∧ 501 < 600 ∧ is_retryable_error (.httpError (some 501)) = false := by
  decide

/-- C7 (amended): the retry predicate marks timeouts, connection failures,
rate-limiting (429) and the server-error statuses 500, 502, 503 and 504 as
retryable — but no other status, in particular no other 5xx code — and every
4xx client error other than 429 as not retryable; retries are bounded
(5 attempts) with exponential backoff (monotone, clamped to [2, 60]
seconds), and when the attempts are exhausted the final error is re-raised
to the caller. -/
theorem retry_policy_spec :
    is_retryable_error .timeout = true ∧
    is_retryable_error .connectionError = true ∧
    (∀ s : Nat, is_retryable_error (.httpError (some s)) = true ↔
      s = 429 ∨ s = 500 ∨ s = 502 ∨ s = 503 ∨ s = 504) ∧
    (∀ s : Nat, 400 ≤ s → s < 500 → s ≠ 429 →
      is_retryable_error (.httpError (some s)) = false) ∧
    RETRY_CONFIG.stop_after_attempts = 5 ∧
    (∀ n : Nat,
      wait_exponential_time RETRY_CONFIG n ≤ wait_exponential_time RETRY_CONFIG (n + 1) ∧
      2 ≤ wait_exponential_time RETRY_CONFIG n ∧
      wait_exponential_time RETRY_CONFIG n ≤ 60) ∧
    (∀ (α : Type) (call : Nat → Except PyException α),
      (∀ k, k < 5 → ∃ e, call k = .error e ∧ is_retryable_error e = true) →
      call_with_retries call = call 4) := by
  refine ⟨rfl, rfl, ?_, ?_, rfl, ?_, ?_⟩
  · intro s
    simp [is_retryable_error]
  · intro s h1 h2 h3
    simp [is_retryable_error]
    omega
  · intro n
    simp only [wait_exponential_time, RETRY_CONFIG, one_mul]
    refine ⟨min_le_min (le_refl 60) (max_le_max (le_refl 2) ?_), ?_, min_le_left _ _⟩
    · exact Nat.pow_le_pow_right (by norm_num) (Nat.le_succ n)
    · exact le_min (by norm_num) (le_max_left _ _)
  · intro α call h
    obtain ⟨e0, hc0, hr0⟩ := h 0 (by norm_num)
    obtain ⟨e1, hc1, hr1⟩ := h 1 (by norm_num)
    obtain ⟨e2, hc2, hr2⟩ := h 2 (by norm_num)
    obtain ⟨e3, hc3, hr3⟩ := h 3 (by norm_num)
    obtain ⟨e4, hc4, hr4⟩ := h 4 (by norm_num)
    simp [call_with_retries, RETRY_CONFIG, retry_run,
      hc0, hr0, hc1, hr1, hc2, hr2, hc3, hr3, hc4, hr4]

/-- Witness for C7 at concrete inputs: 404 is not retried, and a call that
fails with a timeout on every attempt makes exactly 5 attempts and
re-raises the last timeout. -/
theorem retry_policy_spec_witness :
    is_retryable_error (.httpError (some 404)) = false ∧
    call_with_retries (fun _ => (.error .timeout : Except PyException Nat)) =
      .error .timeout := by
  refine ⟨retry_policy_spec.2.2.2.1 404 (by norm_num) (by norm_num) (by norm_num), ?_⟩
  have h := retry_policy_spec.2.2.2.2.2.2 Nat (fun _ => .error .timeout)
    (fun k _ => ⟨.timeout, rfl, rfl⟩)
  simpa using h

/-- C1: the code's actual behavior on the spec's hysteresis scenario.
With threshold 3, after discovering `{A,B,C}` and then `{A,C}` on three
consecutive runs, the candidate for B is created with `misses = 1` on the
second run but is never incremented afterwards — the comparison is made
against the previous run's saved map, which no longer contains B, so
`Removed` is empty from the third run on — and B is never confirmed for
deletion, contradicting the claimed `misses = 2` after run 3 and confirmed
deletion `{B}` after run 4. -/
theorem run_sync_scenario_code_behavior :
    (run_sync ⟨[], []⟩ ["A", "B", "C"] false "t1").urls_to_delete = [] ∧
    (run_sync ⟨[], []⟩ ["A", "B", "C"] false "t1").state.deletion_candidates = [] ∧
    ((run_sync (run_sync ⟨[], []⟩ ["A", "B", "C"] false "t1").state
        ["A", "C"] false "t2").urls_to_delete = [] ∧
      (run_sync (run_sync ⟨[], []⟩ ["A", "B", "C"] false "t1").state
        ["A", "C"] false "t2").state.deletion_candidates = [("B", ⟨1, "t2", "t2"⟩)]) ∧
    ((run_sync (run_sync (run_sync ⟨[], []⟩ ["A", "B", "C"] false "t1").state
        ["A", "C"] false "t2").state ["A", "C"] false "t3").urls_to_delete = [] ∧
      (run_sync (run_sync (run_sync ⟨[], []⟩ ["A", "B", "C"] false "t1").state
        ["A", "C"] false "t2").state ["A", "C"] false "t3").state.deletion_candidates =
        [("B", ⟨1, "t2", "t2"⟩)]) ∧
    ((run_sync (run_sync (run_sync (run_sync ⟨[], []⟩ ["A", "B", "C"] false "t1").state
        ["A", "C"] false "t2").state ["A", "C"] false "t3").state
        ["A", "C"] false "t4").urls_to_delete = [] ∧
      (run_sync (run_sync (run_sync (run_sync ⟨[], []⟩ ["A", "B", "C"] false "t1").state
        ["A", "C"] false "t2").state ["A", "C"] false "t3").state
        ["A", "C"] false "t4").state.deletion_candidates = [("B", ⟨1, "t2", "t2"⟩)]) := by
  decide

theorem bump_candidate_fst (now url : String) (p : String × DeletionCandidate) :
    (bump_candidate now url p).1 = p.1 := by
  rw [bump_candidate]
  by_cases hp : (p.1 == url) = true <;> simp [hp]

theorem bump_candidate_of_ne (now url : String) (p : String × DeletionCandidate)
    (h : p.1 ≠ url) : bump_candidate now url p = p := by
  rw [bump_candidate, if_neg]
  simp [h]

theorem filter_key_map_bump (now url u : String) (cs : Candidates) :
    (cs.map (bump_candidate now url)).filter (fun p => p.1 == u) =
      (cs.filter (fun p => p.1 == u)).map (bump_candidate now url) := by
  induction cs with
  | nil => rfl
  | cons p cs ih =>
    simp only [List.map_cons, List.filter_cons, bump_candidate_fst]
    by_cases hp : (p.1 == u) = true
    · simp [hp, ih]
    · simp [hp, ih]

theorem entriesOf_eq_nil_iff (cs : Candidates) (u : String) :
    entriesOf cs u = [] ↔ ∀ p ∈ cs, p.1 ≠ u := by
  simp [entriesOf, List.map_eq_nil_iff, List.filter_eq_nil_iff]

theorem entriesOf_filter_sub (cs : Candidates) (q : String × DeletionCandidate → Bool)
    (u : String) (h : entriesOf cs u = []) : entriesOf (cs.filter q) u = [] := by
  rw [entriesOf_eq_nil_iff] at h ⊢
  intro p hp
  exact h p (List.mem_of_mem_filter hp)

theorem entriesOf_filter_keep (cs : Candidates) (q : String × DeletionCandidate → Bool)
    (u : String) (h : ∀ p ∈ cs, p.1 = u → q p = true) :
    entriesOf (cs.filter q) u = entriesOf cs u := by
  rw [entriesOf, entriesOf, List.filter_filter]
  congr 1
  apply List.filter_congr
  intro p hp
  by_cases hu : p.1 = u
  · simp [hu, h p hp hu]
  · simp [hu]

theorem entriesOf_record_miss_ne (now : String) (cs : Candidates) (url u : String)
    (h : url ≠ u) : entriesOf (record_miss now cs url) u = entriesOf cs u := by
  rw [record_miss]
  by_cases ha : cs.any (fun p => p.1 == url) = true
  · rw [if_pos ha, entriesOf, filter_key_map_bump, entriesOf, List.map_map]
    apply List.map_congr_left
    intro p hp
    have hpu : p.1 = u := by simpa using (List.mem_filter.mp hp).2
    rw [Function.comp_apply, bump_candidate_of_ne]
    exact fun hc => h ((hpu ▸ hc : u = url)).symm
  · rw [if_neg ha, entriesOf, entriesOf, List.filter_append]
    have hone : List.filter (fun p => p.1 == u)
        [(url, (⟨1, now, now⟩ : DeletionCandidate))] = [] := by
      simp [List.filter_eq_nil_iff]
      exact h
    rw [hone, List.append_nil]

theorem entriesOf_record_miss_self (now : String) (cs : Candidates) (u : String) :
    entriesOf (record_miss now cs u) u =
      if entriesOf cs u = [] then [⟨1, now, now⟩]
      else (entriesOf cs u).map
        (fun d => ⟨d.consecutive_misses + 1, d.first_missing_at, now⟩) := by
  rw [record_miss]
  by_cases ha : cs.any (fun p => p.1 == u) = true
  · have hne : ¬(entriesOf cs u = []) := by
      rw [entriesOf_eq_nil_iff]
      intro hall
      obtain ⟨p, hp, hpu⟩ := List.any_eq_true.mp ha
      exact hall p hp (by simpa using hpu)
    rw [if_pos ha, if_neg hne, entriesOf, filter_key_map_bump, entriesOf,
      List.map_map, List.map_map]
    apply List.map_congr_left
    intro p hp
    have hpu : p.1 = u := by simpa using (List.mem_filter.mp hp).2
    rw [Function.comp_apply, Function.comp_apply, bump_candidate, if_pos (by simp [hpu])]
  · have hnil : entriesOf cs u = [] := by
      rw [entriesOf_eq_nil_iff]
      intro p hp hpu
      exact ha (List.any_eq_true.mpr ⟨p, hp, by simpa using hpu⟩)
    have hfil : cs.filter (fun p => p.1 == u) = [] := List.map_eq_nil_iff.mp hnil
    rw [if_neg ha, if_pos hnil, entriesOf, List.filter_append, hfil]
    simp

theorem entriesOf_foldl_record_miss (now : String) (l : List String)
    (cs : Candidates) (u : String) (hc : l.count u ≤ 1) :
    entriesOf (l.foldl (record_miss now) cs) u =
      if l.count u = 0 then entriesOf cs u
      else if entriesOf cs u = [] then [⟨1, now, now⟩]
      else (entriesOf cs u).map
        (fun d => ⟨d.consecutive_misses + 1, d.first_missing_at, now⟩) := by
  induction l generalizing cs with
  | nil => simp
  | cons a l ih =>
    rw [List.foldl_cons]
    by_cases hau : a = u
    · subst hau
      have hcnt : l.count a = 0 := by
        have := List.count_cons_self a l
        omega
      rw [ih _ (by omega)]
      rw [if_pos hcnt, entriesOf_record_miss_self]
      have : (a :: l).count a ≠ 0 := by
        simp [List.count_cons_self]
      rw [if_neg this]
    · have hcnt : (a :: l).count u = l.count u := by
        simp [List.count_cons, hau]
      rw [ih _ (by omega), entriesOf_record_miss_ne now cs a u hau, hcnt]

theorem mem_confirmed_iff (cs : Candidates) (u : String) :
    u ∈ (cs.filter
        (fun p => DELETION_MISS_THRESHOLD ≤ p.2.consecutive_misses)).map Prod.fst ↔
      ∃ d ∈ entriesOf cs u, DELETION_MISS_THRESHOLD ≤ d.consecutive_misses := by
  simp only [entriesOf, List.mem_map, List.mem_filter]
  constructor
  · rintro ⟨p, ⟨hp, hthr⟩, hpu⟩
    exact ⟨p.2, ⟨p, ⟨hp, by simp [hpu]⟩, rfl⟩, by simpa using hthr⟩
  · rintro ⟨d, ⟨p, ⟨hp, hpu⟩, hpd⟩, hthr⟩
    exact ⟨p, ⟨hp, by simpa [hpd] using hthr⟩, by simpa using hpu⟩

/-- C5: a resource absent from discovery for threshold-1 = 2 consecutive
runs (starting with no pending candidate) is never in the confirmed-deletion
set returned by `update_deletion_candidates` on either run; and whenever a
resource with a pending candidate appears in the active (discovered) set of
a run (and, as the pipeline guarantees, not simultaneously in the removed
set), its candidate record is removed entirely, resetting its accumulated
miss count to zero. -/
theorem deletion_hysteresis_spec :
    (∀ (c : Candidates) (del1 act1 del2 act2 : List String) (u t1 t2 : String),
      (∀ p ∈ c, p.1 ≠ u) → del1.Nodup → del2.Nodup →
      u ∈ del1 → u ∉ act1 → u ∈ del2 → u ∉ act2 →
      u ∉ (update_deletion_candidates c del1 act1 t1).1 ∧
      u ∉ (update_deletion_candidates
            (update_deletion_candidates c del1 act1 t1).2 del2 act2 t2).1) ∧
    (∀ (c : Candidates) (del act : List String) (u t : String),
      (∃ p ∈ c, p.1 = u) → u ∈ act → u ∉ del →
      ∀ p ∈ (update_deletion_candidates c del act t).2, p.1 ≠ u) := by
  constructor
  · intro c del1 act1 del2 act2 u t1 t2 hc hn1 hn2 hd1 ha1 hd2 ha2
    have h0 : entriesOf c u = [] := (entriesOf_eq_nil_iff c u).mpr hc
    have h1 : entriesOf (clear_returned c act1) u = [] := by
      rw [clear_returned]
      exact entriesOf_filter_sub _ _ _ h0
    have hcnt1 : del1.count u = 1 := List.count_eq_one_of_mem hn1 hd1
    have h2 : entriesOf (del1.foldl (record_miss t1) (clear_returned c act1)) u =
        [⟨1, t1, t1⟩] := by
      rw [entriesOf_foldl_record_miss _ _ _ _ (le_of_eq hcnt1),
        if_neg (by omega), if_pos h1]
    have hnotdel1 : u ∉ (update_deletion_candidates c del1 act1 t1).1 := by
      simp only [update_deletion_candidates]
      rw [mem_confirmed_iff]
      rintro ⟨d, hd, hthr⟩
      rw [h2, List.mem_singleton] at hd
      subst hd
      simp [DELETION_MISS_THRESHOLD] at hthr
    refine ⟨hnotdel1, ?_⟩
    have h3 : entriesOf (update_deletion_candidates c del1 act1 t1).2 u =
        [⟨1, t1, t1⟩] := by
      simp only [update_deletion_candidates]
      rw [entriesOf_filter_keep _ _ _ ?keep, h2]
      case keep =>
        intro p hp hpu
        simp only [Bool.not_eq_true', ← Bool.not_eq_true]
        intro hcont
        apply hnotdel1
        simp only [update_deletion_candidates]
        have : p.1 ∈ (((del1.foldl (record_miss t1) (clear_returned c act1)).filter
            (fun p => DELETION_MISS_THRESHOLD ≤ p.2.consecutive_misses)).map Prod.fst) := by
          simpa using hcont
        exact hpu ▸ this
    have h4 : entriesOf (clear_returned (update_deletion_candidates c del1 act1 t1).2 act2) u =
        [⟨1, t1, t1⟩] := by
      rw [clear_returned, entriesOf_filter_keep, h3]
      intro p hp hpu
      simp [hpu]
      exact ha2
    have hcnt2 : del2.count u = 1 := List.count_eq_one_of_mem hn2 hd2
    have h5 : entriesOf (del2.foldl (record_miss t2)
        (clear_returned (update_deletion_candidates c del1 act1 t1).2 act2)) u =
        [⟨2, t1, t2⟩] := by
      rw [entriesOf_foldl_record_miss _ _ _ _ (le_of_eq hcnt2),
        if_neg (by omega), if_neg (by rw [h4]; simp), h4]
      rfl
    simp only [update_deletion_candidates] at h5
    simp only [update_deletion_candidates]
    rw [mem_confirmed_iff]
    rintro ⟨d, hd, hthr⟩
    rw [h5, List.mem_singleton] at hd
    subst hd
    simp [DELETION_MISS_THRESHOLD] at hthr
  · intro c del act u t _hex ha hd
    have h0 : entriesOf (clear_returned c act) u = [] := by
      rw [clear_returned, entriesOf_eq_nil_iff]
      intro p hp hpu
      have hq := (List.mem_filter.mp hp).2
      rw [hpu] at hq
      simp at hq
      exact hq ha
    have h1 : entriesOf (del.foldl (record_miss t) (clear_returned c act)) u = [] := by
      have hcnt : del.count u = 0 := List.count_eq_zero.mpr hd
      rw [entriesOf_foldl_record_miss _ _ _ _ (by omega), if_pos hcnt]
      exact h0
    intro p hp
    have h2 : entriesOf (update_deletion_candidates c del act t).2 u = [] := by
      simp only [update_deletion_candidates]
      exact entriesOf_filter_sub _ _ _ h1
    exact (entriesOf_eq_nil_iff _ _).mp h2 p hp

/-- C8: in force-refresh mode, provided every persisted deletion candidate
has `consecutive_misses` below the threshold, the run confirms no deletions
(the cached set is treated as empty, so `Removed` is empty and no miss
count is incremented) and every discovered URL is queued for scraping. -/
theorem run_sync_force_refresh (st : SyncState) (discovered : List String) (now : String)
    (h : ∀ p ∈ st.deletion_candidates,
      p.2.consecutive_misses < DELETION_MISS_THRESHOLD) :
    (map_website discovered st.map_urls true).deleted_urls = [] ∧
    (run_sync st discovered true now).urls_to_delete = [] ∧
    (run_sync st discovered true now).urls_to_scrape = discovered := by
  refine ⟨rfl, ?_, rfl⟩
  show (update_deletion_candidates st.deletion_candidates [] discovered now).1 = []
  simp only [update_deletion_candidates, List.foldl_nil]
  rw [List.filter_eq_nil_iff.mpr, List.map_nil]
  intro p hp
  have hmem : p ∈ st.deletion_candidates := List.mem_of_mem_filter hp
  have := h p hmem
  simp
  omega

/-- Witness for C5 at concrete inputs. -/
theorem deletion_hysteresis_spec_witness :
    ("u" ∉ (update_deletion_candidates [] ["u"] [] "t1").1 ∧
      "u" ∉ (update_deletion_candidates
        (update_deletion_candidates [] ["u"] [] "t1").2 ["u"] [] "t2").1) ∧
    (∀ p ∈ (update_deletion_candidates
        [("u", ⟨2, "a", "b"⟩)] [] ["u"] "t").2, p.1 ≠ "u") :=
  ⟨deletion_hysteresis_spec.1 [] ["u"] [] ["u"] [] "u" "t1" "t2"
      (by simp) (by simp) (by simp) (by simp) (by simp) (by simp) (by simp),
    deletion_hysteresis_spec.2 [("u", ⟨2, "a", "b"⟩)] [] ["u"] "u" "t"
      ⟨("u", ⟨2, "a", "b"⟩), by simp, rfl⟩ (by simp) (by simp)⟩

/-- Witness for C8: a concrete state with one pending candidate below the
threshold. -/
theorem run_sync_force_refresh_witness :
    (run_sync ⟨["A"], [("B", ⟨2, "x", "y"⟩)]⟩ ["A", "C"] true "t").urls_to_delete = [] ∧
    (run_sync ⟨["A"], [("B", ⟨2, "x", "y"⟩)]⟩ ["A", "C"] true "t").urls_to_scrape =
      ["A", "C"] :=
  ⟨(run_sync_force_refresh ⟨["A"], [("B", ⟨2, "x", "y"⟩)]⟩ ["A", "C"] "t"
      (by decide)).2.1,
    (run_sync_force_refresh ⟨["A"], [("B", ⟨2, "x", "y"⟩)]⟩ ["A", "C"] "t"
      (by decide)).2.2⟩

theorem slug_char_iff (c : Char) : slug_char c = true ↔
    ('a' ≤ c ∧ c ≤ 'z') ∨ ('0' ≤ c ∧ c ≤ '9') ∨ c = '-' := by
  rw [slug_char]
  exact decide_eq_true_iff

/-- C10 counterexample: for the URL `https://example.com/index` the path
stripped of slashes is the non-empty string "index", yet `url_to_slug`
returns "index", so "index" is returned not *exactly* when the stripped path
is empty (the digest function is irrelevant here and instantiated
arbitrarily). -/
theorem url_to_slug_index_counterexample :
    url_to_slug (fun _ => "") "https://example.com/index" = "index" ∧
    strip_slashes (urlparse_path (rstrip_slashes "https://example.com/index")) = "index" ∧
    strip_slashes (urlparse_path (rstrip_slashes "https://example.com/index")) ≠ "" := by
  refine ⟨?_, ?_, ?_⟩ <;> decide

/-- C10 (amended): for every URL, `url_to_slug` returns a string of
lowercase ASCII letters, digits and hyphens only, of length at most 89
(`MAX_SLUG_LEN` 80 plus a hyphen and the 8-character hash suffix appended
when the raw slug exceeds 80 characters); and it returns "index" whenever
the URL's path component, stripped of leading and trailing slashes, is
empty (but not only then: a non-empty path whose sanitized slug is the word
"index" also yields "index").  The digest hypothesis records that
`hashlib.sha256(...).hexdigest()` produces lowercase hex characters. -/
theorem url_to_slug_spec (sha256_hexdigest : String → String) (url : String)
    (hsha : ∀ s : String, ∀ c ∈ (sha256_hexdigest s).data,
      ('a' ≤ c ∧ c ≤ 'f') ∨ ('0' ≤ c ∧ c ≤ '9')) :
    (∀ c ∈ (url_to_slug sha256_hexdigest url).data,
      ('a' ≤ c ∧ c ≤ 'z') ∨ ('0' ≤ c ∧ c ≤ '9') ∨ c = '-') ∧
    (url_to_slug sha256_hexdigest url).length ≤ MAX_SLUG_LEN + 9 ∧
    (strip_slashes (urlparse_path (rstrip_slashes url)) = "" →
      url_to_slug sha256_hexdigest url = "index") := by
  by_cases hp : strip_slashes (urlparse_path (rstrip_slashes url)) = ""
  · rw [url_to_slug, if_pos hp]
    refine ⟨by decide, by decide, fun _ => rfl⟩
  · rw [url_to_slug, if_neg hp]
    refine ⟨?_, ?_, fun h => absurd h hp⟩
    · intro c hc
      by_cases hlen : MAX_SLUG_LEN <
          (((strip_slashes (urlparse_path (rstrip_slashes url))).data.flatMap
            (fun c => if c == '/' then ['-', '-'] else [c])).map Char.toLower
            |>.filter slug_char).length
      · rw [if_pos hlen] at hc
        simp only [String.data] at hc
        rcases List.mem_append.mp hc with h1 | h2
        · have := List.mem_filter.mp (List.mem_of_mem_take h1)
          exact (slug_char_iff c).mp this.2
        · rcases List.mem_cons.mp h2 with h3 | h4
          · exact Or.inr (Or.inr h3)
          · have hhex := hsha url c (List.mem_of_mem_take h4)
            rcases hhex with ⟨hl, hr⟩ | hnum
            · exact Or.inl ⟨hl, le_trans hr (by decide)⟩
            · exact Or.inr (Or.inl hnum)
      · rw [if_neg hlen] at hc
        simp only [String.data] at hc
        have := List.mem_filter.mp hc
        exact (slug_char_iff c).mp this.2
    · by_cases hlen : MAX_SLUG_LEN <
          (((strip_slashes (urlparse_path (rstrip_slashes url))).data.flatMap
            (fun c => if c == '/' then ['-', '-'] else [c])).map Char.toLower
            |>.filter slug_char).length
      · rw [if_pos hlen]
        simp only [String.length, String.data, List.length_append, List.length_cons,
          List.length_take, MAX_SLUG_LEN]
        omega
      · rw [if_neg hlen]
        simp only [MAX_SLUG_LEN, not_lt] at hlen
        simp only [String.length, String.data, MAX_SLUG_LEN]
        omega

/-- Witness for C10 at a concrete URL and a concrete hex digest. -/
theorem url_to_slug_spec_witness :
    (∀ c ∈ (url_to_slug
        (fun _ => "9f86d081884c7d659a2feaa0c55ad015a3bf4f1b2b0b822cd15d6c15b0f00a08")
        "https://example.com/Pricing/Plans").data,
      ('a' ≤ c ∧ c ≤ 'z') ∨ ('0' ≤ c ∧ c ≤ '9') ∨ c = '-') ∧
    (url_to_slug
        (fun _ => "9f86d081884c7d659a2feaa0c55ad015a3bf4f1b2b0b822cd15d6c15b0f00a08")
        "https://example.com/Pricing/Plans").length ≤ MAX_SLUG_LEN + 9 ∧
    (strip_slashes (urlparse_path (rstrip_slashes "https://example.com/Pricing/Plans")) = "" →
      url_to_slug
        (fun _ => "9f86d081884c7d659a2feaa0c55ad015a3bf4f1b2b0b822cd15d6c15b0f00a08")
        "https://example.com/Pricing/Plans" = "index") :=
  url_to_slug_spec _ _ (fun _ => by decide)

theorem chunksOf_nil {α : Type} (n : Nat) : chunksOf n ([] : List α) = [] := by
  cases n <;> simp [chunksOf]

theorem chunksOf_singleton {α : Type} (n : Nat) (l : List α) (hne : l ≠ [])
    (hlen : l.length ≤ n + 1) : chunksOf (n + 1) l = [l] := by
  cases l with
  | nil => exact absurd rfl hne
  | cons x xs =>
    rw [chunksOf]
    rw [List.take_of_length_le hlen, List.drop_eq_nil_of_le hlen, chunksOf_nil]

theorem batch_scrape_singleton {Page : Type} (api : FirecrawlApi Page)
    (sha256_hexdigest : String → String) (urls : List String) (fr : Bool)
    (state0 : Batches Page) (now : String) (pageFuel : Nat)
    (hne : urls ≠ []) (hlen : urls.length ≤ BATCH_SIZE) :
    batch_scrape api sha256_hexdigest urls fr state0 now pageFuel =
      process_chunk api sha256_hexdigest fr now pageFuel state0 urls := by
  have hchunks : chunksOf BATCH_SIZE urls = [urls] := by
    have h := chunksOf_singleton 99 urls hne (by simpa [BATCH_SIZE] using hlen)
    simpa [BATCH_SIZE] using h
  rw [batch_scrape, hchunks]
  simp only [List.foldl_cons, List.foldl_nil, List.nil_append]

theorem lookupB_setB {Page : Type} (bs : Batches Page) (k : String)
    (r : BatchRecord Page) : lookupB (setB bs k r) k = some r := by
  rw [setB]
  by_cases h : bs.any (fun p => p.1 == k) = true
  · rw [if_pos h]
    induction bs with
    | nil => simp at h
    | cons p bs ih =>
      rw [List.map_cons]
      by_cases hp : (p.1 == k) = true
      · rw [if_pos hp, lookupB, List.find?_cons_of_pos _ (by simpa using hp)]
        rfl
      · rw [if_neg hp, lookupB, List.find?_cons_of_neg _ (by simpa using hp)]
        have htail : bs.any (fun p => p.1 == k) = true := by
          rcases List.any_eq_true.mp h with ⟨q, hq, hqk⟩
          rcases List.mem_cons.mp hq with rfl | hq2
          · exact absurd hqk (by simpa using hp)
          · exact List.any_eq_true.mpr ⟨q, hq2, hqk⟩
        exact ih htail
  · rw [if_neg h, lookupB, List.find?_append]
    have hn : bs.find? (fun p => p.1 == k) = none := by
      rw [List.find?_eq_none]
      intro p hp hc
      exact h (List.any_eq_true.mpr ⟨p, hp, hc⟩)
    rw [hn]
    simp [List.find?]

theorem poll_loop_events {Page : Type} (poll : Nat → Except String (PollResponse Page))
    (fid : String) (k fuel : Nat) :
    ∀ e ∈ (poll_loop poll fid k fuel).1, e = .pollCall fid := by
  induction fuel generalizing k with
  | zero => simp [poll_loop]
  | succ fuel ih =>
    rw [poll_loop]
    by_cases ht : MAX_POLL_TIME < (k + 1) * POLL_INTERVAL
    · simp [ht]
    · simp only [if_neg ht]
      cases hp : poll k with
      | error e => simp
      | ok resp =>
        by_cases hc : resp.status = "completed"
        · simp [hc]
        · by_cases hf : resp.status = "failed"
          · simp [hc, hf]
          · simp only [if_neg hc, if_neg hf]
            intro e he
            rcases List.mem_cons.mp he with h | h
            · exact h
            · exact ih (k + 1) e h

theorem poll_loop_first {Page : Type} (poll : Nat → Except String (PollResponse Page))
    (fid : String) :
    ∃ t, (poll_loop poll fid 0 POLL_FUEL).1 = ApiEvent.pollCall fid :: t := by
  have hfuel : POLL_FUEL = 120 + 1 := by norm_num [POLL_FUEL, MAX_POLL_TIME, POLL_INTERVAL]
  rw [hfuel, poll_loop]
  rw [if_neg (by norm_num [MAX_POLL_TIME, POLL_INTERVAL])]
  cases hp : poll 0 with
  | error e =>
    dsimp only
    exact ⟨[], rfl⟩
  | ok resp =>
    dsimp only
    by_cases hc : resp.status = "completed"
    · rw [if_pos hc]
      exact ⟨[], rfl⟩
    · rw [if_neg hc]
      by_cases hf : resp.status = "failed"
      · rw [if_pos hf]
        exact ⟨[], rfl⟩
      · rw [if_neg hf]
        exact ⟨_, rfl⟩

theorem paginate_events {Page : Type} (page : String → Except String (PollResponse Page))
    (acc : List Page) (next : Option String) (fuel : Nat) :
    ∀ e ∈ (paginate page acc next fuel).1, ∃ u, e = .pageCall u := by
  induction fuel generalizing acc next with
  | zero =>
    cases next <;> simp [paginate]
  | succ fuel ih =>
    cases next with
    | none => simp [paginate]
    | some u =>
      rw [paginate]
      cases hp : page u with
      | error e => simp
      | ok resp =>
        intro e he
        rcases List.mem_cons.mp he with h | h
        · exact ⟨u, h⟩
        · exact ih _ _ e h

theorem run_poll_trace {Page : Type} (api : FirecrawlApi Page) (batch_id fid : String)
    (batch_urls : List String) (bs : Batches Page) (evs : List (ApiEvent Page))
    (now : String) (pageFuel : Nat) :
    ∃ tail, (run_poll api batch_id fid batch_urls bs evs now pageFuel).1 = evs ++ tail ∧
      (∀ us, ApiEvent.submitCall us ∉ tail) ∧
      ∃ t, tail = ApiEvent.pollCall fid :: t := by
  obtain ⟨t0, ht0⟩ := poll_loop_first (api.poll fid) fid
  rcases hpl : poll_loop (api.poll fid) fid 0 POLL_FUEL with ⟨pevs, out⟩
  rw [run_poll, hpl]
  have hpevs : ∀ e ∈ pevs, e = ApiEvent.pollCall fid := by
    have h := poll_loop_events (api.poll fid) fid 0 POLL_FUEL
    rw [hpl] at h
    exact h
  have hfirst : pevs = ApiEvent.pollCall fid :: t0 := by
    rw [hpl] at ht0
    exact ht0
  cases out with
  | pollTimeout =>
    dsimp only
    refine ⟨pevs ++ [.saveState (mark_failed bs batch_id "poll_timeout")],
      by rw [List.append_assoc], ?_, ?_⟩
    · intro us hmem
      rcases List.mem_append.mp hmem with h | h
      · exact absurd (hpevs _ h) (by simp)
      · simp at h
    · exact ⟨t0 ++ [.saveState (mark_failed bs batch_id "poll_timeout")],
        by rw [hfirst]; rfl⟩
  | pollError e =>
    dsimp only
    refine ⟨pevs ++ [.saveState (mark_failed bs batch_id e)],
      by rw [List.append_assoc], ?_, ?_⟩
    · intro us hmem
      rcases List.mem_append.mp hmem with h | h
      · exact absurd (hpevs _ h) (by simp)
      · simp at h
    · exact ⟨t0 ++ [.saveState (mark_failed bs batch_id e)], by rw [hfirst]; rfl⟩
  | batchFailed =>
    dsimp only
    refine ⟨pevs ++ [.saveState (mark_failed bs batch_id "batch_failed")],
      by rw [List.append_assoc], ?_, ?_⟩
    · intro us hmem
      rcases List.mem_append.mp hmem with h | h
      · exact absurd (hpevs _ h) (by simp)
      · simp at h
    · exact ⟨t0 ++ [.saveState (mark_failed bs batch_id "batch_failed")],
        by rw [hfirst]; rfl⟩
  | completed resp =>
    dsimp only
    rcases hpg : paginate api.page resp.data resp.next pageFuel with ⟨qevs, pages⟩
    have hqevs : ∀ e ∈ qevs, ∃ u, e = ApiEvent.pageCall u := by
      have h := paginate_events api.page resp.data resp.next pageFuel
      rw [hpg] at h
      exact h
    dsimp only
    refine ⟨pevs ++ (qevs ++ [.saveState _]),
      by rw [List.append_assoc, List.append_assoc], ?_, ?_⟩
    · intro us hmem
      rcases List.mem_append.mp hmem with h | h
      · exact absurd (hpevs _ h) (by simp)
      · rcases List.mem_append.mp h with h2 | h2
        · obtain ⟨u, hu⟩ := hqevs _ h2
          simp at hu
        · simp at h2
    · exact ⟨t0 ++ (qevs ++ [.saveState _]), by rw [hfirst]; rfl⟩

/-- C2: for a batch whose persisted record has status "completed",
re-running `batch_scrape` without force-refresh on the same URL chunk makes
zero remote calls for that chunk (the event trace is empty), appends exactly
the cached pages of that record to the result, and leaves the state
unchanged. -/
theorem batch_scrape_completed_cache {Page : Type} (api : FirecrawlApi Page)
    (sha256_hexdigest : String → String) (state0 : Batches Page) (urls : List String)
    (rec : BatchRecord Page) (now : String) (pageFuel : Nat)
    (hne : urls ≠ []) (hlen : urls.length ≤ BATCH_SIZE)
    (hrec : lookupB state0 (get_batch_id sha256_hexdigest urls) = some rec)
    (hst : rec.status = some "completed") :
    batch_scrape api sha256_hexdigest urls false state0 now pageFuel =
      ([], state0, rec.pages) := by
  rw [batch_scrape_singleton api sha256_hexdigest urls false state0 now pageFuel hne hlen]
  simp only [process_chunk, hrec, Option.getD_some]
  rw [if_pos ⟨trivial, hst⟩]

/-- C3: for a batch whose persisted record has status "polling" and a
non-empty `firecrawl_batch_id`, `batch_scrape` without force-refresh never
calls the submit endpoint and its first remote call polls the recorded job
id; and on the fresh-submission path, the polling record carrying the job id
returned by submit is persisted (the `saveState` event) immediately after
the submit call and before any poll call — the rest of the trace, which
contains all polling, holds no further submit call. -/
theorem batch_scrape_polling_resume :
    (∀ (Page : Type) (api : FirecrawlApi Page) (sha256_hexdigest : String → String)
       (state0 : Batches Page) (urls : List String) (rec : BatchRecord Page)
       (fid now : String) (pageFuel : Nat),
      urls ≠ [] → urls.length ≤ BATCH_SIZE →
      lookupB state0 (get_batch_id sha256_hexdigest urls) = some rec →
      rec.status = some "polling" → rec.firecrawl_batch_id = some fid → fid ≠ "" →
      (∀ us, ApiEvent.submitCall us ∉
        (batch_scrape api sha256_hexdigest urls false state0 now pageFuel).1) ∧
      (batch_scrape api sha256_hexdigest urls false state0 now pageFuel).1.head? =
        some (.pollCall fid)) ∧
    (∀ (Page : Type) (api : FirecrawlApi Page) (sha256_hexdigest : String → String)
       (state0 : Batches Page) (urls : List String) (fid now : String) (pageFuel : Nat),
      urls ≠ [] → urls.length ≤ BATCH_SIZE →
      ((lookupB state0 (get_batch_id sha256_hexdigest urls)).getD {}).firecrawl_batch_id
        = none →
      ((lookupB state0 (get_batch_id sha256_hexdigest urls)).getD {}).status
        ≠ some "completed" →
      api.submit urls = .ok fid →
      ∃ (bs : Batches Page) (rest : List (ApiEvent Page)),
        (batch_scrape api sha256_hexdigest urls false state0 now pageFuel).1 =
          .submitCall urls :: .saveState bs :: rest ∧
        lookupB bs (get_batch_id sha256_hexdigest urls) =
          some { status := some "polling", firecrawl_batch_id := some fid,
                 urls := urls, timestamp := some now } ∧
        (∀ us, ApiEvent.submitCall us ∉ rest)) := by
  constructor
  · intro Page api sha state0 urls rec fid now pageFuel hne hlen hrec hst hfid hfne
    rw [batch_scrape_singleton api sha urls false state0 now pageFuel hne hlen]
    simp only [process_chunk, hrec, Option.getD_some]
    rw [if_neg (by simp [hst]), hfid]
    dsimp only
    rw [if_pos ⟨trivial, hst, hfne⟩]
    obtain ⟨tail, htr, hnosub, t, hfirst⟩ :=
      run_poll_trace api (get_batch_id sha urls) fid urls state0 [] now pageFuel
    rw [List.nil_append] at htr
    constructor
    · intro us
      rw [htr]
      exact hnosub us
    · rw [htr, hfirst]
      rfl
  · intro Page api sha state0 urls fid now pageFuel hne hlen hfid0 hstat hsub
    rw [batch_scrape_singleton api sha urls false state0 now pageFuel hne hlen]
    simp only [process_chunk]
    rw [if_neg (fun h => hstat h.2), hfid0]
    rw [submit_and_poll]
    simp only [hsub]
    obtain ⟨tail, htr, hnosub, t, hfirst⟩ :=
      run_poll_trace api (get_batch_id sha urls) fid urls
        (setB state0 (get_batch_id sha urls)
          { status := some "polling", firecrawl_batch_id := some fid,
            urls := urls, timestamp := some now })
        [.submitCall urls, .saveState (setB state0 (get_batch_id sha urls)
          { status := some "polling", firecrawl_batch_id := some fid,
            urls := urls, timestamp := some now })] now pageFuel
    refine ⟨setB state0 (get_batch_id sha urls)
        { status := some "polling", firecrawl_batch_id := some fid,
          urls := urls, timestamp := some now }, tail, ?_, lookupB_setB _ _ _,
        fun us => hnosub us⟩
    rw [htr]
    rfl

/-- Witness for C2 at a concrete completed record; the remote API would
fail every call, so the cached result shows no call was made. -/
theorem batch_scrape_completed_cache_witness :
    batch_scrape
      (⟨fun _ => .error "offline", fun _ _ => .error "offline",
        fun _ => .error "offline"⟩ : FirecrawlApi String)
      (fun _ => "k") ["u"] false
      [("k", { status := some "completed", pages := ["p"] })] "t" 0 =
      ([], [("k", { status := some "completed", pages := ["p"] })], ["p"]) :=
  batch_scrape_completed_cache _ _ _ _
    { status := some "completed", pages := ["p"] } _ _
    (by decide) (by decide) rfl rfl

/-- Witness for C3 at concrete states: a polling record with job id "f",
and a fresh submission against an empty state. -/
theorem batch_scrape_polling_resume_witness :
    ((∀ us, ApiEvent.submitCall us ∉
        (batch_scrape
          (⟨fun _ => .error "x", fun _ _ => .error "x", fun _ => .error "x"⟩ :
            FirecrawlApi String) (fun _ => "k") ["u"] false
          [("k", { status := some "polling", firecrawl_batch_id := some "f" })]
          "t" 0).1) ∧
      (batch_scrape
          (⟨fun _ => .error "x", fun _ _ => .error "x", fun _ => .error "x"⟩ :
            FirecrawlApi String) (fun _ => "k") ["u"] false
          [("k", { status := some "polling", firecrawl_batch_id := some "f" })]
          "t" 0).1.head? = some (.pollCall "f")) ∧
    (∃ (bs : Batches String) (rest : List (ApiEvent String)),
      (batch_scrape
          (⟨fun _ => .ok "f", fun _ _ => .error "x", fun _ => .error "x"⟩ :
            FirecrawlApi String) (fun _ => "k") ["u"] false [] "t" 0).1 =
        .submitCall ["u"] :: .saveState bs :: rest ∧
      lookupB bs (get_batch_id (fun _ => "k") ["u"]) =
        some { status := some "polling", firecrawl_batch_id := some "f",
               urls := ["u"], timestamp := some "t" } ∧
      (∀ us, ApiEvent.submitCall us ∉ rest)) :=
  ⟨batch_scrape_polling_resume.1 String
      ⟨fun _ => .error "x", fun _ _ => .error "x", fun _ => .error "x"⟩
      (fun _ => "k")
      [("k", { status := some "polling", firecrawl_batch_id := some "f" })]
      ["u"] { status := some "polling", firecrawl_batch_id := some "f" }
      "f" "t" 0 (by decide) (by decide) rfl rfl rfl (by decide),
    batch_scrape_polling_resume.2 String
      ⟨fun _ => .ok "f", fun _ _ => .error "x", fun _ => .error "x"⟩
      (fun _ => "k") [] ["u"] "f" "t" 0
      (by decide) (by decide) rfl (by decide) rfl⟩
